import Mathlib

/-!
Verification development for the Bajaj-Finserv-Hackathon repository
(a retrieval-augmented document question-answering service).

Python strings are modelled as `List Char` (so `len` is `List.length` and
slicing is `List.drop`/`List.take`); `None`-returning fallible code is
modelled with `Option`, raised exceptions with `Except`.  External services
(HTTP download, document loaders, the Chroma vector store, the Gemini chat
model) are oracles carried in an `Env` record; the file-system side effects
the code performs (temporary files and directories) are threaded through an
explicit `FS` state.

The text chunking logic is configuration over langchain's
`RecursiveCharacterTextSplitter`; its algorithm (separator selection,
regex-free literal splitting with `keep_separator=True`, merging with
overlap, recursion on the remaining separators) is reproduced here so that
the chunk-size claims can be settled concretely.
-/

set_option maxHeartbeats 1000000

namespace PolicyReader

/-- A langchain `Document`: page content plus a metadata dictionary. -/
structure Document where
  page_content : String
  metadata : List (String × String)
deriving DecidableEq, Repr

/-- Occurrence test of a literal pattern inside a text, as Python
`re.search(re.escape(pat), text)` used by the splitter to pick a separator. -/
def containsSub (pat : List Char) : List Char → Bool
  | [] => pat.isEmpty
  | c :: rest => pat.isPrefixOf (c :: rest) || containsSub pat rest

/-- Python `text.split(sep)` for a non-empty literal separator: splits at every
occurrence, keeping empty pieces.  (For `sep = []` it returns `[text]`;
that case is unreachable because the configured separators are non-empty.) -/
def splitOnList (sep : List Char) (text : List Char) : List (List Char) :=
  match text with
  | [] => [[]]
  | c :: rest =>
    if !sep.isEmpty && sep.isPrefixOf (c :: rest) then
      [] :: splitOnList sep (rest.drop (sep.length - 1))
    else
      match splitOnList sep rest with
      | [] => [[c]]
      | p :: ps => (c :: p) :: ps
  termination_by text.length
  decreasing_by
    · simp only [List.length_drop, List.length_cons]
      omega
    · simp only [List.length_cons]
      omega

/-- langchain `_split_text_with_regex(text, separator, keep_separator=True)`
for a literal separator: the pieces of `text.split(sep)` with the separator
re-attached to the front of every piece but the first, empty pieces dropped. -/
def splitTextWithRegex (sep text : List Char) : List (List Char) :=
  if sep.isEmpty then
    (text.map (fun c => [c])).filter (fun s => !s.isEmpty)
  else
    match splitOnList sep text with
    | [] => []
    | p :: ps => (p :: ps.map (fun q => sep ++ q)).filter (fun s => !s.isEmpty)

/-- Separator selection of langchain `_split_text`: the first separator
occurring in the text is chosen together with the remaining separators;
an empty separator is chosen with no remaining ones; if none occurs the
last separator is the fallback, again with no remaining ones. -/
def chooseSep (seps : List (List Char)) (text : List Char) : List Char × List (List Char) :=
  match seps with
  | [] => ([], [])
  | s :: rest =>
    if s.isEmpty then ([], [])
    else if containsSub s text then (s, rest)
    else
      match rest with
      | [] => (s, [])
      | _ :: _ => chooseSep rest text

/-- Python `separator.join(docs)`. -/
def sepJoin (sep : List Char) : List (List Char) → List Char
  | [] => []
  | [d] => d
  | d :: rest => d ++ sep ++ sepJoin sep rest

/-- Python `text.strip()`: whitespace removed from both ends. -/
def pyStripList (l : List Char) : List Char :=
  ((l.dropWhile Char.isWhitespace).reverse.dropWhile Char.isWhitespace).reverse

/-- langchain `TextSplitter._join_docs` with `strip_whitespace=True`:
join, strip, and drop the result when it is empty. -/
def joinDocs (sep : List Char) (docs : List (List Char)) : Option (List Char) :=
  let text := pyStripList (sepJoin sep docs)
  if text.isEmpty then none else some text

/-- The pop loop of langchain `TextSplitter._merge_splits`: drop leading
pieces of the running window while the running total exceeds the chunk
overlap, or appending the next piece would exceed the chunk size.
(Python would fault when the window is empty and the condition held;
there the total is zero so the condition is false, and this function
returns the window unchanged in that unreachable case.) -/
def popLoop (cs co sepLen dlen : Int) (total : Int) : List (List Char) → Int × List (List Char)
  | [] => (total, [])
  | c0 :: rest =>
    if total > co ∨ (total + dlen + sepLen > cs ∧ total > 0) then
      popLoop cs co sepLen dlen
        (total - ((c0.length : Int) + (if rest.isEmpty then 0 else sepLen))) rest
    else (total, c0 :: rest)

/-- Main loop of langchain `TextSplitter._merge_splits`: pieces are packed
into a sliding window; when the next piece would overflow the chunk size the
window is emitted (joined and stripped) and shrunk by `popLoop`. -/
def mergeGo (cs co : Int) (sep : List Char) :
    List (List Char) → List (List Char) → Int → List (List Char)
  | [], cur, _ => (joinDocs sep cur).toList
  | d :: rest, cur, total =>
    let sepLen : Int := sep.length
    let dlen : Int := d.length
    let st : List (List Char) × List (List Char) × Int :=
      if total + dlen + (if cur.isEmpty then 0 else sepLen) > cs then
        if cur.isEmpty then ([], cur, total)
        else
          let e := (joinDocs sep cur).toList
          let pc := popLoop cs co sepLen dlen total cur
          (e, pc.2, pc.1)
      else ([], cur, total)
    let cur2 := st.2.1 ++ [d]
    let total2 := st.2.2 + dlen + (if cur2.length ≤ 1 then 0 else sepLen)
    st.1 ++ mergeGo cs co sep rest cur2 total2

/-- langchain `TextSplitter._merge_splits(splits, separator)`. -/
def mergeSplits (cs co : Int) (sep : List Char) (splits : List (List Char)) : List (List Char) :=
  mergeGo cs co sep splits [] 0

/-- Total character count of a window of pieces (the quantity the merge
loop's `total` tracks when the join separator is empty). -/
def sumLen (l : List (List Char)) : Int :=
  ((l.map List.length).sum : Nat)

/-- Split-processing loop of langchain `_split_text`: pieces shorter than the
chunk size accumulate into `good`; on an over-long piece the accumulated run
is merged and flushed, and the piece itself is either emitted whole (when no
separators remain, `leaf = true`) or split recursively (`recurse`). -/
def processSplits (cs co : Int) (leaf : Bool) (recurse : List Char → List (List Char)) :
    List (List Char) → List (List Char) → List (List Char)
  | [], good => if good.isEmpty then [] else mergeSplits cs co [] good
  | s :: rest, good =>
    if (s.length : Int) < cs then
      processSplits cs co leaf recurse rest (good ++ [s])
    else
      (if good.isEmpty then [] else mergeSplits cs co [] good)
      ++ (if leaf then [s] else recurse s)
      ++ processSplits cs co leaf recurse rest []

/-- langchain `RecursiveCharacterTextSplitter._split_text(text, separators)`.
The recursion terminates because the remaining-separator list returned by
`chooseSep` is always a tail of the given one, hence strictly shorter than
`s0 :: rest`. -/
def splitTextR (cs co : Int) : (seps : List (List Char)) → List Char → List (List Char)
  | [], text => [text]
  | s0 :: rest, text =>
    let pr := chooseSep (s0 :: rest) text
    processSplits cs co pr.2.isEmpty (fun t => splitTextR cs co pr.2 t)
      (splitTextWithRegex pr.1 text) []
  termination_by seps _ => seps.length
  decreasing_by
    have key : ∀ (s : List Char) (r : List (List Char)) (t : List Char),
        (chooseSep (s :: r) t).2.length ≤ r.length := by
      intro s r t
      induction r generalizing s with
      | nil =>
        unfold chooseSep
        split <;> simp_all
      | cons r0 rs ih =>
        unfold chooseSep
        split
        · simp
        · split
          · simp
          · exact le_trans (ih r0) (Nat.le_succ _)
    have h := key s0 rest text
    simp only [List.length_cons]
    omega

/-- The separators `chunk_documents` and `chunk_documents_api` configure:
`["\n\n", "\n", ". ", " "]`. -/
def rcts_separators : List (List Char) :=
  [['\n', '\n'], ['\n'], ['.', ' '], [' ']]

/-- `RecursiveCharacterTextSplitter.split_text` with the configuration of
`chunk_documents` / `chunk_documents_api` (`chunk_size=1000`,
`chunk_overlap=200`, the fixed separator list). -/
def split_text (text : List Char) : List (List Char) :=
  splitTextR 1000 200 rcts_separators text

/-- `RecursiveCharacterTextSplitter.split_documents`: each document's content
is split and every chunk becomes a document with the source's metadata. -/
def rcts_split_documents (docs : List Document) : List Document :=
  (docs.map (fun d =>
    (split_text d.page_content.data).map
      (fun c => { page_content := String.mk c, metadata := d.metadata }))).flatten

/-- `chunk_documents` of `utils/document_processor.py`: an empty (falsy)
document list short-circuits to `[]`; otherwise the recursive splitter with
`chunk_size=1000`, `chunk_overlap=200` and the fixed separators is applied. -/
def chunk_documents (documents : List Document) : List Document :=
  if documents.isEmpty then [] else rcts_split_documents documents

/-- `chunk_documents_api` of `utils/api_utils.py`: same check and same
splitter configuration as `chunk_documents`. -/
def chunk_documents_api (documents : List Document) : List Document :=
  if documents.isEmpty then [] else rcts_split_documents documents

/-! ### Path and extension handling -/

/-- Index of the last occurrence of a character, Python `str.rfind`
(as an `Option` instead of `-1`). -/
def rfindIdx (c : Char) (l : List Char) : Option Nat :=
  match l.reverse.findIdx? (fun d => d == c) with
  | none => none
  | some j => some (l.length - 1 - j)

/-- `pathlib.PurePath.name` of a path string: the last non-empty
slash-separated component. -/
def pathNameOf (p : List Char) : List Char :=
  ((splitOnList ['/'] p).filter (fun s => !s.isEmpty)).getLastD []

/-- `pathlib.PurePath.suffix`: the final dot-suffix of the name, including the
dot, empty when the name has no inner dot before its last character. -/
def pySuffix (name : List Char) : List Char :=
  match rfindIdx '.' name with
  | none => []
  | some i => if 0 < i ∧ i < name.length - 1 then name.drop i else []

/-- `Path(p).suffix` on a `String`. -/
def pathSuffixStr (p : String) : String :=
  String.mk (pySuffix (pathNameOf p.data))

/-- Python `str.lower()` (ASCII, as used on extensions). -/
def lowerStr (s : String) : String :=
  String.mk (s.data.map Char.toLower)

/-- Python `str.strip('.')`: dots removed from both ends. -/
def stripDots (s : String) : String :=
  String.mk (((s.data.dropWhile (fun c => c == '.')).reverse.dropWhile
    (fun c => c == '.')).reverse)

/-- The extension computed by `load_document_from_path`:
`Path(temp_file_path).suffix.lower().strip('.')`. -/
def file_extension_from_path (p : String) : String :=
  stripDots (lowerStr (pathSuffixStr p))

/-- The extension computed by `load_document` (UI path):
`uploaded_file.name.split('.')[-1].lower()`. -/
def ext_from_name (name : String) : String :=
  lowerStr (String.mk ((splitOnList ['.'] name.data).getLastD []))

/-! ### External-service model -/

/-- A Python exception: either a fastapi/starlette `HTTPException` (whose
`str` is `"status: detail"`) or any other exception with its message. -/
inductive PyExc where
  | http (status : Nat) (detail : String)
  | other (msg : String)
deriving DecidableEq, Repr

/-- Python `str(e)` for the modelled exceptions. -/
def PyExc.str : PyExc → String
  | .http s d => toString s ++ ": " ++ d
  | .other m => m

/-- The three langchain loader classes the dispatch chooses between. -/
inductive LoaderKind where
  | pypdf
  | unstructured_word
  | text
deriving DecidableEq, Repr

/-- Retrieval mode accepted by `VectorStore.as_retriever`. -/
inductive SearchType where
  | similarity
  | mmr
  | similarity_score_threshold
deriving DecidableEq, Repr

/-- A Chroma vector store, abstracted to its retrieval behaviour: `search ty q
k` returns the documents retrieved for query `q` with mode `ty` and count `k`. -/
structure VectorStore where
  search : SearchType → String → Nat → List Document

/-- The Gemini embeddings model handle (opaque: embeddings are remote calls). -/
structure EmbeddingsModel where
  tag : Nat
deriving DecidableEq, Repr

/-- The Gemini chat model: a prompt either yields an answer or raises. -/
structure LLM where
  call : String → Except PyExc String

/-- Oracles for every external effect the code performs, plus the names the
temp-file machinery would generate.  The download has two network phases,
mirroring `requests.get(stream=True)`: `http_get` models receiving the
response headers (including `raise_for_status`), and `http_stream` models
consuming the body via `iter_content` — either phase can raise a
`RequestException`. -/
structure Env where
  http_get : String → Except String Unit
  http_stream : String → Except String Unit
  tmp_file_base : String
  tmp_dir_path : String
  loader_load : LoaderKind → String → Except PyExc (List Document)
  chroma_from_documents : List Document → EmbeddingsModel → String → Except PyExc VectorStore
  llm : LLM
  embeddings : EmbeddingsModel

/-- File-system state: the set of existing paths. -/
structure FS where
  paths : List String
deriving DecidableEq, Repr

/-- A path exists in the file-system state. -/
def FS.mem (fs : FS) (p : String) : Prop := p ∈ fs.paths

instance (fs : FS) (p : String) : Decidable (fs.mem p) := by
  unfold FS.mem; infer_instance

/-- Creating a file or directory at a path. -/
def FS.create (fs : FS) (p : String) : FS := ⟨p :: fs.paths⟩

/-- `os.remove` / `shutil.rmtree` guarded by `os.path.exists`. -/
def FS.remove (fs : FS) (p : String) : FS := ⟨fs.paths.filter (fun q => q != p)⟩

/-! ### utils/api_utils.py -/

/-- `download_file_from_url` of `utils/api_utils.py`: any network failure
(`requests.exceptions.RequestException`) is caught and yields `None`.  The
order of effects follows the source: `requests.get` returns after the headers
(a failure here, including `raise_for_status`, leaves no file); then the
`NamedTemporaryFile` named with `Path(url).suffix` is created with
`delete=False`; only then is the body streamed via `iter_content` — a network
failure during streaming still yields `None`, but the partially written temp
file remains on disk.  On success the temp path is returned. -/
def download_file_from_url (env : Env) (url : String) (fs : FS) : Option String × FS :=
  match env.http_get url with
  | .error _ => (none, fs)
  | .ok _ =>
    let temp_file_path := env.tmp_file_base ++ pathSuffixStr url
    let fs1 := fs.create temp_file_path
    match env.http_stream url with
    | .error _ => (none, fs1)
    | .ok _ => (some temp_file_path, fs1)

/-- The loader dispatch shared (verbatim) by `load_document_from_path` and
`load_document`: `pdf` / `docx`, `doc` / `txt`, anything else unsupported. -/
def select_loader (ext : String) : Option LoaderKind :=
  if ext = "pdf" then some .pypdf
  else if ext = "docx" ∨ ext = "doc" then some .unstructured_word
  else if ext = "txt" then some .text
  else none

/-- `load_document_from_path` of `utils/api_utils.py`: dispatch on the
lowercased dot-stripped suffix; unsupported extensions and loader exceptions
both yield `None`. -/
def load_document_from_path (env : Env) (temp_file_path : String) : Option (List Document) :=
  let file_extension := file_extension_from_path temp_file_path
  match select_loader file_extension with
  | none => none
  | some l =>
    match env.loader_load l temp_file_path with
    | .ok docs => some docs
    | .error _ => none

/-- `create_and_store_embeddings_api` of `utils/api_utils.py`: an empty chunk
list yields `None` before any vector-store call; a `Chroma.from_documents`
exception is caught and yields `None`. -/
def create_and_store_embeddings_api
    (chroma : List Document → EmbeddingsModel → String → Except PyExc VectorStore)
    (chunks : List Document) (embeddings_model : EmbeddingsModel)
    (persist_path : String) : Option VectorStore :=
  if chunks.isEmpty then none
  else
    match chroma chunks embeddings_model persist_path with
    | .ok vectorstore => some vectorstore
    | .error _ => none

/-! ### utils/document_processor.py (UI path) -/

/-- A Streamlit uploaded file: a name and its bytes. -/
structure UploadedFile where
  name : String
  content : String
deriving DecidableEq, Repr

/-- `load_document` of `utils/document_processor.py`: the upload is written to
a temp file named with the dotted extension, the same loader dispatch runs
inside `try`, and the `finally` block deletes the temp file on success,
failure and unsupported type alike. -/
def load_document (env : Env) (uploaded_file : UploadedFile) (fs : FS) :
    Option (List Document) × FS :=
  let file_extension := ext_from_name uploaded_file.name
  let temp_file_path := env.tmp_file_base ++ "." ++ file_extension
  let fs1 := fs.create temp_file_path
  let res : Option (List Document) :=
    match select_loader file_extension with
    | none => none
    | some l =>
      match env.loader_load l temp_file_path with
      | .ok docs => some docs
      | .error _ => none
  (res, fs1.remove temp_file_path)

/-- `create_and_store_embeddings` of `utils/document_processor.py`: same
behaviour as the API variant (empty chunks and store exceptions give `None`). -/
def create_and_store_embeddings
    (chroma : List Document → EmbeddingsModel → String → Except PyExc VectorStore)
    (chunks : List Document) (embeddings_model : EmbeddingsModel)
    (persist_path : String) : Option VectorStore :=
  if chunks.isEmpty then none
  else
    match chroma chunks embeddings_model persist_path with
    | .ok vectorstore => some vectorstore
    | .error _ => none

/-! ### core/qa_chain.py -/

/-- `vectorstore.as_retriever(search_type=..., search_kwargs=dict k)`. -/
structure Retriever where
  vectorstore : VectorStore
  search_type : SearchType
  k : Nat

/-- `VectorStore.as_retriever`. -/
def VectorStore.as_retriever (vs : VectorStore) (search_type : SearchType)
    (k : Nat) : Retriever :=
  { vectorstore := vs, search_type := search_type, k := k }

/-- `Retriever.get_relevant_documents`: delegates to the vector store with the
configured mode and count. -/
def Retriever.get_relevant_documents (r : Retriever) (query : String) : List Document :=
  r.vectorstore.search r.search_type query r.k

/-- The custom prompt template of `create_qa_chain`, filled with context and
question. -/
def qa_prompt_template (context question : String) : String :=
  "You are an AI assistant specialized in legal policy analysis. \n    Context from the document:\n    "
  ++ context
  ++ "\n\n    Question: " ++ question ++ "\n\n    Answer:"

/-- A `RetrievalQA` chain as configured by `create_qa_chain`. -/
structure QAChain where
  llm : LLM
  retriever : Retriever
  chain_type : String
  return_source_documents : Bool

/-- `create_qa_chain` of `core/qa_chain.py`: retriever with similarity search
and `k = 3`, a stuff chain with the custom prompt, source documents returned. -/
def create_qa_chain (llm : LLM) (vectorstore : VectorStore) : QAChain :=
  { llm := llm
    retriever := vectorstore.as_retriever .similarity 3
    chain_type := "stuff"
    return_source_documents := true }

/-- The stuff chain joins the retrieved documents with its default
`document_separator` before putting them into the prompt. -/
def joinContext (docs : List Document) : String :=
  String.intercalate "\n\n" (docs.map (fun d => d.page_content))

/-- The output dictionary of running a `RetrievalQA` chain. -/
structure ChainOutput where
  query : String
  result : Option String
  source_documents : List Document

/-- Running the `RetrievalQA` stuff chain on a query, modelled from the
library: retrieve with the configured retriever, stuff the retrieved
documents into the prompt, call the chat model; the answer is returned under
the `result` key, the retrieved documents under `source_documents`.  A model
exception propagates. -/
def QAChain.run_query (chain : QAChain) (question : String) : Except PyExc ChainOutput :=
  let docs := chain.retriever.get_relevant_documents question
  match chain.llm.call (qa_prompt_template (joinContext docs) question) with
  | .error e => .error e
  | .ok answer =>
    .ok { query := question, result := some answer, source_documents := docs }

/-! ### webhook.py -/

/-- The request body of `/hackrx/run`. -/
structure QueryRequest where
  documents : List String
  questions : List String
deriving DecidableEq, Repr

/-- The observable outcome of one request to the endpoint. -/
inductive EndResult where
  | ok (answers : List String)
  | httpError (status : Nat) (detail : String)
  | unhandled (exc : String)
deriving DecidableEq, Repr

/-- The auth check of `process_policy_query`:
`not auth_header or not auth_header.startswith("Bearer ")`
(a missing header and the empty string are falsy). -/
def bearerCheckFails (auth : Option String) : Bool :=
  match auth with
  | none => true
  | some s => s.data.isEmpty || !("Bearer ".data.isPrefixOf s.data)

/-- The message of the `IndexError` raised by `payload.documents[0]`. -/
def indexErrorMsg : String := "IndexError: list index out of range"

/-- The question loop of `process_policy_query`:
`[qa_chain(dict query q).get("result", "No answer found.") for q in questions]`,
evaluated left to right with the first exception aborting the comprehension. -/
def run_all_questions (chain : QAChain) : List String → Except PyExc (List String)
  | [] => .ok []
  | q :: qs =>
    match chain.run_query q with
    | .error e => .error e
    | .ok out =>
      match run_all_questions chain qs with
      | .error e => .error e
      | .ok rest => .ok ((out.result.getD "No answer found.") :: rest)

/-- Steps 2-5 of the try block of `process_policy_query`, after the download:
load (`None` and the falsy empty list give a 400), chunk (falsy gives a 500),
embed (`None` gives a 500), then the question loop; a `None` download gives a
400.  The raised `HTTPException`s appear here as `.error` values because the
catch-all below converts them, like every other exception, into a 500. -/
def endpoint_body (env : Env) (local_file_path : Option String)
    (questions : List String) (temp_db_path : String) : Except PyExc (List String) :=
  match local_file_path with
  | none => .error (.http 400 "Could not download document from URL.")
  | some path =>
    match load_document_from_path env path with
    | none => .error (.http 400 "Could not load the downloaded document.")
    | some documents =>
      if documents.isEmpty then
        .error (.http 400 "Could not load the downloaded document.")
      else
        let chunks := chunk_documents_api documents
        if chunks.isEmpty then .error (.http 500 "Failed to chunk document.")
        else
          match create_and_store_embeddings_api env.chroma_from_documents
              chunks env.embeddings temp_db_path with
          | none => .error (.http 500 "Failed to create vector embeddings.")
          | some vectorstore =>
            run_all_questions (create_qa_chain env.llm vectorstore) questions

/-- The `finally` block of `process_policy_query`: remove the downloaded file
when one was created (and its path is truthy) and still exists, then remove
the temp directory if it exists. -/
def endpoint_cleanup (local_file_path : Option String) (temp_db_path : String)
    (fs : FS) : FS :=
  let fs3 :=
    match local_file_path with
    | some p => if p.data.isEmpty then fs else fs.remove p
    | none => fs
  fs3.remove temp_db_path

/-- `process_policy_query` of `webhook.py`.  After the auth check (which runs
before anything else) the first document URL is read (an empty list raises an
unhandled `IndexError`), a temp directory is created, and the try block runs
download, load, chunk, embed and the question loop.  Every exception raised
inside the try block — the endpoint's own `HTTPException`s included, since
they subclass `Exception` — is converted by the catch-all into a 500
response; the `finally` block removes the downloaded file (when one was
created and is truthy) and the temp directory. -/
def process_policy_query (env : Env) (payload : QueryRequest)
    (authorization : Option String) (fs : FS) : EndResult × FS :=
  if bearerCheckFails authorization then
    (.httpError 401 "Missing or invalid Authorization header", fs)
  else
    match payload.documents with
    | [] => (.unhandled indexErrorMsg, fs)
    | doc_url :: _ =>
      let temp_db_path := env.tmp_dir_path
      let fs1 := fs.create temp_db_path
      let dl := download_file_from_url env doc_url fs1
      let result : EndResult :=
        match endpoint_body env dl.1 payload.questions temp_db_path with
        | .ok answers => .ok answers
        | .error e => .httpError 500 ("An internal error occurred: " ++ e.str)
      (result, endpoint_cleanup dl.1 temp_db_path dl.2)

/-! ### Concrete sample environments for witnesses and counterexamples -/

/-- A sample loaded document. -/
def wordDoc : Document := { page_content := "hello.", metadata := [] }

/-- An environment in which every external call succeeds. -/
def happyEnv : Env :=
  { http_get := fun _ => .ok ()
    http_stream := fun _ => .ok ()
    tmp_file_base := "/tmp/dl"
    tmp_dir_path := "/tmp/db"
    loader_load := fun _ _ => .ok [wordDoc]
    chroma_from_documents := fun _ _ _ => .ok ⟨fun _ _ _ => [wordDoc]⟩
    llm := ⟨fun _ => .ok "answer"⟩
    embeddings := ⟨0⟩ }

/-- The empty file system. -/
def fs0 : FS := ⟨[]⟩

/-- A document whose content is a single 1001-character word: it contains no
separator at all, so the splitter must emit it as one over-long chunk. -/
def bigDoc : Document :=
  { page_content := String.mk (List.replicate 1001 'a'), metadata := [] }

/-- An environment whose download fails mid-stream: the headers arrive and
the temp file is created, then the body transfer raises a
`RequestException`. -/
def streamFailEnv : Env :=
  { happyEnv with http_stream := fun _ => .error "connection reset during transfer" }

/-! ### Claims -/

/-- C4: the UI-path chunker and the API-path chunker are the same function:
both instantiate the recursive splitter with chunk size 1000, overlap 200 and
separators `["\n\n", "\n", ". ", " "]`, so they return equal chunk lists on
every document list. -/
theorem chunk_documents_eq_chunk_documents_api (documents : List Document) :
    chunk_documents documents = chunk_documents_api documents := rfl

/-- C10: empty inputs short-circuit: both chunkers return `[]` on an empty
document list, and both embedding creators return `none` on an empty chunk
list for every possible vector-store oracle (so no store call can matter). -/
theorem empty_inputs_short_circuit :
    chunk_documents [] = []
    ∧ chunk_documents_api [] = []
    ∧ (∀ chroma em path, create_and_store_embeddings chroma [] em path = none)
    ∧ (∀ chroma em path, create_and_store_embeddings_api chroma [] em path = none) :=
  ⟨rfl, rfl, fun _ _ _ => rfl, fun _ _ _ => rfl⟩

/-- C7: the chain built by `create_qa_chain` retrieves with similarity search
and `k = 3`, and the chat model receives exactly those retrieved chunks,
stuffed into the prompt as context. -/
theorem qa_chain_uses_similarity_top3 (llm : LLM) (vs : VectorStore) (q : String) :
    (create_qa_chain llm vs).retriever = vs.as_retriever .similarity 3
    ∧ (create_qa_chain llm vs).retriever.get_relevant_documents q
        = vs.search .similarity q 3
    ∧ (create_qa_chain llm vs).run_query q =
        (match llm.call (qa_prompt_template (joinContext (vs.search .similarity q 3)) q) with
         | .error e => .error e
         | .ok answer => .ok { query := q, result := some answer,
                               source_documents := vs.search .similarity q 3 }) :=
  ⟨rfl, rfl, rfl⟩

/-- C8: a missing Authorization header, or one not starting with
`"Bearer "`, makes the endpoint fail with HTTP 401 before any download,
processing or temp-file creation: the file-system state is returned
unchanged. -/
theorem missing_auth_gives_401_state_unchanged (env : Env) (payload : QueryRequest)
    (auth : Option String) (fs : FS)
    (h : auth = none ∨ ∃ s, auth = some s ∧ ("Bearer ".data.isPrefixOf s.data) = false) :
    process_policy_query env payload auth fs =
      (.httpError 401 "Missing or invalid Authorization header", fs) := by
  have hb : bearerCheckFails auth = true := by
    rcases h with rfl | ⟨s, rfl, hs⟩
    · rfl
    · simp [bearerCheckFails, hs]
  simp [process_policy_query, hb]

/-- Witness for C8 at a concrete request whose header does not start with
`"Bearer "`. -/
theorem missing_auth_gives_401_state_unchanged_witness :
    process_policy_query happyEnv ⟨["http://h/a.pdf"], ["q"]⟩ (some "Token abc") fs0 =
      (.httpError 401 "Missing or invalid Authorization header", fs0) :=
  missing_auth_gives_401_state_unchanged happyEnv ⟨["http://h/a.pdf"], ["q"]⟩
    (some "Token abc") fs0 (Or.inr ⟨"Token abc", rfl, by decide⟩)

/-- C9: the endpoint reads only the head of the documents list — two requests
differing only after the first document produce identical outcomes and
states — and an empty documents list raises an unhandled `IndexError` (after
the auth check) instead of a handled HTTP error. -/
theorem only_first_document_used_and_empty_crashes (env : Env) (auth : Option String)
    (fs : FS) (qs : List String) :
    (∀ d0 r1 r2, process_policy_query env ⟨d0 :: r1, qs⟩ auth fs
        = process_policy_query env ⟨d0 :: r2, qs⟩ auth fs)
    ∧ (bearerCheckFails auth = false →
        process_policy_query env ⟨[], qs⟩ auth fs = (.unhandled indexErrorMsg, fs)) := by
  constructor
  · intro d0 r1 r2; rfl
  · intro h; simp [process_policy_query, h]

/-- Witness for C9 at concrete requests with valid authorization. -/
theorem only_first_document_used_and_empty_crashes_witness :
    process_policy_query happyEnv ⟨["http://h/a.pdf", "http://h/b.pdf"], ["q"]⟩
        (some "Bearer t") fs0
      = process_policy_query happyEnv ⟨["http://h/a.pdf", "http://h/c.pdf"], ["q"]⟩
        (some "Bearer t") fs0
    ∧ process_policy_query happyEnv ⟨[], ["q"]⟩ (some "Bearer t") fs0
      = (.unhandled indexErrorMsg, fs0) :=
  ⟨(only_first_document_used_and_empty_crashes happyEnv (some "Bearer t") fs0 ["q"]).1
      "http://h/a.pdf" ["http://h/b.pdf"] ["http://h/c.pdf"],
   (only_first_document_used_and_empty_crashes happyEnv (some "Bearer t") fs0 ["q"]).2
      (by decide)⟩

/-- C2 counterexample: `.doc` is not one of PDF/DOCX/TXT, yet loading a
`.doc` file does not return `None`: the Word loader is selected and its
result is returned.  (The dispatch in both loader functions reads
`elif file_extension in ["docx", "doc"]`.) -/
theorem load_accepts_doc_extension_counterexample :
    file_extension_from_path "policy.doc" = "doc"
    ∧ ("doc" = "pdf" ∨ "doc" = "docx" ∨ "doc" = "txt") = False
    ∧ select_loader "doc" = some .unstructured_word
    ∧ load_document_from_path happyEnv "policy.doc" = some [wordDoc] := by
  have hext : file_extension_from_path "policy.doc" = "doc" := by
    simp [file_extension_from_path, stripDots, lowerStr, pathSuffixStr, pySuffix,
      pathNameOf, rfindIdx, splitOnList]
  refine ⟨hext, by simp, rfl, ?_⟩
  simp [load_document_from_path, hext, select_loader, happyEnv]

/-- C2 (amended): document loading accepts exactly the file types PDF, DOCX,
DOC and TXT: a lowercased extension among these selects the matching loader
(`pdf` the PDF loader, `docx`/`doc` the Word loader, `txt` the text loader),
and both `load_document_from_path` and `load_document` return `None`, without
raising, on every other extension. -/
theorem load_dispatch_exact_extensions (env : Env) (ext : String) (p : String)
    (up : UploadedFile) (fs : FS) :
    ((select_loader ext).isSome ↔ ext ∈ (["pdf", "docx", "doc", "txt"] : List String))
    ∧ (ext = "pdf" → select_loader ext = some .pypdf)
    ∧ ((ext = "docx" ∨ ext = "doc") → select_loader ext = some .unstructured_word)
    ∧ (ext = "txt" → select_loader ext = some .text)
    ∧ (select_loader (file_extension_from_path p) = none →
        load_document_from_path env p = none)
    ∧ (∀ l, select_loader (file_extension_from_path p) = some l →
        load_document_from_path env p =
          (match env.loader_load l p with
           | .ok docs => some docs
           | .error _ => none))
    ∧ (select_loader (ext_from_name up.name) = none →
        (load_document env up fs).1 = none) := by
  refine ⟨?_, ?_, ?_, ?_, ?_, ?_, ?_⟩
  · unfold select_loader
    split_ifs <;> simp_all
    tauto
  · intro h; simp [select_loader, h]
  · rintro (h | h) <;> simp [select_loader, h]
  · intro h; simp [select_loader, h]
  · intro h; simp [load_document_from_path, h]
  · intro l h; simp [load_document_from_path, h]
  · intro h; simp [load_document, h]

/-- Witness for C2 (amended) at a supported and an unsupported concrete
extension. -/
theorem load_dispatch_exact_extensions_witness :
    ((select_loader "pdf").isSome ↔ "pdf" ∈ (["pdf", "docx", "doc", "txt"] : List String))
    ∧ select_loader "pdf" = some .pypdf
    ∧ load_document_from_path happyEnv "notes.xyz" = none
    ∧ (load_document happyEnv ⟨"notes.xyz", "body"⟩ fs0).1 = none := by
  have hext : file_extension_from_path "notes.xyz" = "xyz" := by
    simp [file_extension_from_path, stripDots, lowerStr, pathSuffixStr, pySuffix,
      pathNameOf, rfindIdx, splitOnList]
  have hname : ext_from_name "notes.xyz" = "xyz" := by
    simp [ext_from_name, lowerStr, splitOnList]
  have h := load_dispatch_exact_extensions happyEnv "pdf" "notes.xyz" ⟨"notes.xyz", "body"⟩ fs0
  refine ⟨h.1, h.2.1 rfl, ?_, ?_⟩
  · exact h.2.2.2.2.1 (by rw [hext]; rfl)
  · exact h.2.2.2.2.2.2 (by rw [hname]; rfl)

/-- Removing a path removes every copy of it. -/
theorem FS.not_mem_remove (fs : FS) (p : String) : ¬(fs.remove p).mem p := by
  simp [FS.mem, FS.remove]

/-- Removing a path cannot make another path appear. -/
theorem FS.not_mem_remove_of (fs : FS) (p q : String) (h : ¬fs.mem q) :
    ¬(fs.remove p).mem q := by
  simp only [FS.mem, FS.remove] at *
  intro hmem
  exact h (List.mem_of_mem_filter hmem)

/-- Creating a different path preserves absence. -/
theorem FS.not_mem_create (fs : FS) (p q : String) (h : ¬fs.mem q) (hne : q ≠ p) :
    ¬(fs.create p).mem q := by
  simp only [FS.mem, FS.create, List.mem_cons]
  rintro (rfl | hmem)
  · exact hne rfl
  · exact h hmem

/-- A string append with a non-empty left part is non-empty. -/
theorem append_data_isEmpty_false (a b : String) (h : a ≠ "") :
    ((a ++ b).data.isEmpty) = false := by
  rcases a with ⟨da⟩
  cases da with
  | nil => exact absurd rfl h
  | cons c cs => rfl

/-- C6 counterexample: the claimed cleanup fails when the download dies
mid-stream.  The source creates the `NamedTemporaryFile` after the response
headers arrive but before `iter_content` streams the body; a
`RequestException` during streaming is caught and `None` returned, so the
endpoint sees `local_file_path = None` and its `finally` block never removes
the partially written temp file: after this authorized request completes, the
downloaded temp file — absent beforehand — still exists. -/
theorem temp_file_survives_stream_failure_counterexample :
    bearerCheckFails (some "Bearer t") = false
    ∧ (¬ fs0.mem ("/tmp/dl" ++ pathSuffixStr "http://h/a.pdf"))
    ∧ (process_policy_query streamFailEnv ⟨["http://h/a.pdf"], ["q"]⟩
        (some "Bearer t") fs0).2.mem ("/tmp/dl" ++ pathSuffixStr "http://h/a.pdf") := by
  refine ⟨by decide, by simp [FS.mem, fs0], ?_⟩
  simp +decide [process_policy_query, bearerCheckFails, download_file_from_url,
    endpoint_body, endpoint_cleanup, streamFailEnv, happyEnv, FS.create, FS.remove,
    FS.mem, fs0, pathSuffixStr, pySuffix, pathNameOf, rfindIdx, splitOnList]

/-- C6 (amended): `load_document` deletes the temp file it created whether
loading succeeds or fails; and for every request past the auth check — with
fresh temp names — the temporary vector-store directory never exists when the
request completes, and neither does the downloaded file whenever the download
completed and returned its path.  (A temp file created by a download that
failed mid-stream is left behind: the endpoint only removes the path the
download returned.) -/
theorem temp_files_cleaned_up :
    (∀ (env : Env) (up : UploadedFile) (fs : FS),
      ¬((load_document env up fs).2.mem
        (env.tmp_file_base ++ "." ++ ext_from_name up.name)))
    ∧ (∀ (env : Env) (payload : QueryRequest) (auth : Option String) (fs : FS),
        bearerCheckFails auth = false →
        ¬ fs.mem env.tmp_dir_path →
        env.tmp_file_base ≠ "" →
        ¬((process_policy_query env payload auth fs).2.mem env.tmp_dir_path)
        ∧ (∀ u rest p, payload.documents = u :: rest →
            (download_file_from_url env u (fs.create env.tmp_dir_path)).1 = some p →
            ¬((process_policy_query env payload auth fs).2.mem p))) := by
  constructor
  · intro env up fs
    exact FS.not_mem_remove _ _
  · intro env payload auth fs hauth hdir hbase
    rcases payload with ⟨ docs, qs ⟩
    cases docs with
    | nil =>
      simp only [process_policy_query, hauth, Bool.false_eq_true, if_false]
      exact ⟨ hdir, by intro u rest p hu; cases hu ⟩
    | cons d ds =>
      simp only [process_policy_query, hauth, Bool.false_eq_true, if_false]
      constructor
      · exact FS.not_mem_remove _ _
      · intro u rest p hu hdl
        obtain ⟨ rfl, rfl ⟩ : u = d ∧ rest = ds := by
          have h := hu
          simp only at h
          injection h with h1 h2
          exact ⟨ h1.symm, h2.symm ⟩
        unfold download_file_from_url at hdl ⊢
        unfold endpoint_cleanup
        cases hget : env.http_get u with
        | error e =>
          rw [hget] at hdl
          dsimp only at hdl
          cases hdl
        | ok v =>
          rw [hget] at hdl
          dsimp only at hdl ⊢
          cases hstream : env.http_stream u with
          | error e =>
            rw [hstream] at hdl
            dsimp only at hdl
            cases hdl
          | ok w =>
            rw [hstream] at hdl
            dsimp only at hdl ⊢
            obtain rfl : env.tmp_file_base ++ pathSuffixStr u = p :=
              Option.some.inj hdl
            simp only [append_data_isEmpty_false _ _ hbase, Bool.false_eq_true, if_false]
            exact FS.not_mem_remove_of _ _ _ (FS.not_mem_remove _ _)

/-- Witness for C6 (amended): with fresh temp names and an empty initial file
system, a concrete successful request leaves neither the temp directory nor
the downloaded file behind, and the UI loader leaves no temp file. -/
theorem temp_files_cleaned_up_witness :
    (¬((load_document happyEnv ⟨"a.pdf", "body"⟩ fs0).2.mem
        ("/tmp/dl" ++ "." ++ ext_from_name "a.pdf")))
    ∧ (¬((process_policy_query happyEnv ⟨["http://h/a.txt"], ["q"]⟩
          (some "Bearer t") fs0).2.mem "/tmp/db"))
    ∧ (¬((process_policy_query happyEnv ⟨["http://h/a.txt"], ["q"]⟩
          (some "Bearer t") fs0).2.mem ("/tmp/dl" ++ pathSuffixStr "http://h/a.txt"))) := by
  have h2 := temp_files_cleaned_up.2 happyEnv ⟨["http://h/a.txt"], ["q"]⟩
    (some "Bearer t") fs0 (by decide) (by simp [FS.mem, fs0]) (by decide)
  refine ⟨ temp_files_cleaned_up.1 happyEnv ⟨"a.pdf", "body"⟩ fs0, h2.1, ?_⟩
  apply h2.2 "http://h/a.txt" [] ("/tmp/dl" ++ pathSuffixStr "http://h/a.txt") rfl
  simp [download_file_from_url, happyEnv]

/-- A successful question loop yields one answer per question, in order, each
the `result` field of the chain run (with the fallback for an absent field). -/
theorem run_all_questions_ok (chain : QAChain) (qs answers : List String)
    (h : run_all_questions chain qs = .ok answers) :
    answers.length = qs.length
    ∧ ∀ i (h1 : i < qs.length) (h2 : i < answers.length),
        ∃ out, chain.run_query (qs.get ⟨i, h1⟩) = .ok out
          ∧ answers.get ⟨i, h2⟩ = out.result.getD "No answer found." := by
  induction qs generalizing answers with
  | nil =>
    simp only [run_all_questions, Except.ok.injEq] at h
    subst h
    exact ⟨rfl, fun i h1 => absurd h1 (Nat.not_lt_zero i)⟩
  | cons q qs ih =>
    rw [run_all_questions] at h
    cases hq : chain.run_query q with
    | error e => rw [hq] at h; cases h
    | ok out =>
      rw [hq] at h
      cases hr : run_all_questions chain qs with
      | error e => rw [hr] at h; cases h
      | ok rest =>
        rw [hr] at h
        simp only [Except.ok.injEq] at h
        subst h
        obtain ⟨hlen, hidx⟩ := ih rest hr
        refine ⟨by simp [hlen], ?_⟩
        intro i h1 h2
        cases i with
        | zero => exact ⟨out, hq, rfl⟩
        | succ n =>
          have hn1 : n < qs.length := by simpa using h1
          have hn2 : n < rest.length := by simpa using h2
          exact hidx n hn1 hn2

/-- C1: whenever a request to `/hackrx/run` succeeds, the response contains
exactly one answer per question of `payload.questions`, in the same order,
and each answer is the `result` field of running the QA chain (built from the
vector store created for this request) on that question, with the fallback
string `"No answer found."` when that field is absent. -/
theorem endpoint_success_one_answer_per_question (env : Env) (payload : QueryRequest)
    (auth : Option String) (fs : FS) (answers : List String) (fsOut : FS)
    (h : process_policy_query env payload auth fs = (.ok answers, fsOut)) :
    answers.length = payload.questions.length
    ∧ ∃ vectorstore,
        ∀ i (h1 : i < payload.questions.length) (h2 : i < answers.length),
          ∃ out, (create_qa_chain env.llm vectorstore).run_query
                   (payload.questions.get ⟨i, h1⟩) = .ok out
            ∧ answers.get ⟨i, h2⟩ = out.result.getD "No answer found." := by
  unfold process_policy_query at h
  cases hbc : bearerCheckFails auth with
  | true => rw [hbc] at h; simp at h
  | false =>
    rw [hbc] at h
    simp only [Bool.false_eq_true, if_false] at h
    cases hdocs : payload.documents with
    | nil => rw [hdocs] at h; simp at h
    | cons d ds =>
      rw [hdocs] at h
      dsimp only at h
      cases hbody : endpoint_body env
          (download_file_from_url env d (fs.create env.tmp_dir_path)).1
          payload.questions env.tmp_dir_path with
      | error e => rw [hbody] at h; simp at h
      | ok as =>
        rw [hbody] at h
        simp only [Prod.mk.injEq, EndResult.ok.injEq] at h
        obtain ⟨rfl, -⟩ := h
        unfold endpoint_body at hbody
        cases hdl : (download_file_from_url env d (fs.create env.tmp_dir_path)).1 with
        | none => rw [hdl] at hbody; cases hbody
        | some path =>
          rw [hdl] at hbody
          dsimp only at hbody
          cases hload : load_document_from_path env path with
          | none => rw [hload] at hbody; cases hbody
          | some documents =>
            rw [hload] at hbody
            dsimp only at hbody
            cases hde : documents.isEmpty with
            | true => rw [hde] at hbody; cases hbody
            | false =>
              rw [hde] at hbody
              simp only [Bool.false_eq_true, if_false] at hbody
              cases hch : (chunk_documents_api documents).isEmpty with
              | true => rw [hch] at hbody; cases hbody
              | false =>
                rw [hch] at hbody
                simp only [Bool.false_eq_true, if_false] at hbody
                cases hemb : create_and_store_embeddings_api env.chroma_from_documents
                    (chunk_documents_api documents) env.embeddings env.tmp_dir_path with
                | none => rw [hemb] at hbody; cases hbody
                | some vectorstore =>
                  rw [hemb] at hbody
                  obtain ⟨hlen, hidx⟩ := run_all_questions_ok _ _ _ hbody
                  exact ⟨hlen, vectorstore, hidx⟩

/-- Witness for C1: a concrete request that succeeds end to end. -/
theorem endpoint_success_one_answer_per_question_witness :
    process_policy_query happyEnv ⟨["http://h/a.txt"], ["q"]⟩ (some "Bearer t") fs0
      = (.ok ["answer"], fs0)
    ∧ (["answer"] : List String).length
        = (⟨["http://h/a.txt"], ["q"]⟩ : QueryRequest).questions.length := by
  have hrun : process_policy_query happyEnv ⟨["http://h/a.txt"], ["q"]⟩
      (some "Bearer t") fs0 = (.ok ["answer"], fs0) := by
    simp +decide [process_policy_query, bearerCheckFails, download_file_from_url,
      endpoint_body, endpoint_cleanup, load_document_from_path, file_extension_from_path,
      stripDots, lowerStr, pathSuffixStr, pySuffix, pathNameOf, rfindIdx, splitOnList,
      select_loader, happyEnv, create_and_store_embeddings_api, chunk_documents_api,
      rcts_split_documents, split_text, splitTextR, chooseSep, containsSub,
      splitTextWithRegex, processSplits, mergeSplits, mergeGo, popLoop, joinDocs, sepJoin,
      pyStripList, run_all_questions, QAChain.run_query, create_qa_chain,
      Retriever.get_relevant_documents, VectorStore.as_retriever, joinContext,
      qa_prompt_template, wordDoc, FS.create, FS.remove, fs0, rcts_separators]
  exact ⟨hrun, (endpoint_success_one_answer_per_question happyEnv
    ⟨["http://h/a.txt"], ["q"]⟩ (some "Bearer t") fs0 ["answer"] fs0 hrun).1⟩

/-! ### Properties of the splitter -/

/-- Python `split` never returns an empty list of pieces. -/
theorem splitOnList_ne_nil (sep text : List Char) : splitOnList sep text ≠ [] := by
  induction text with
  | nil => simp [splitOnList]
  | cons c rest ih =>
    rw [splitOnList]
    split
    · simp
    · cases h : splitOnList sep rest with
      | nil => exact absurd h ih
      | cons p ps => simp

/-- When the separator does not occur in the text, splitting returns the text
as the single piece. -/
theorem splitOnList_no_occ (sep text : List Char)
    (h : containsSub sep text = false) : splitOnList sep text = [text] := by
  induction text with
  | nil =>
    rw [containsSub] at h
    rw [splitOnList]
  | cons c rest ih =>
    rw [containsSub] at h
    simp only [Bool.or_eq_false_iff] at h
    rw [splitOnList]
    rw [h.1, Bool.and_false, if_neg (by simp)]
    rw [ih h.2]

/-- Pieces of a single-character split never contain the separator
character. -/
theorem splitOnList_single_not_mem (c : Char) (text : List Char) :
    ∀ p ∈ splitOnList [c] text, c ∉ p := by
  induction text with
  | nil =>
    intro p hp
    rw [splitOnList] at hp
    simp only [List.mem_singleton] at hp
    subst hp
    simp
  | cons a rest ih =>
    intro p hp
    rw [splitOnList] at hp
    by_cases hca : ([c] : List Char).isPrefixOf (a :: rest)
    · rw [if_pos (by simp [hca])] at hp
      have hdrop : rest.drop (([c] : List Char).length - 1) = rest := by simp
      rw [hdrop] at hp
      rcases List.mem_cons.mp hp with rfl | hp'
      · simp
      · exact ih p hp'
    · have hne : c ≠ a := by
        intro hca'
        subst hca'
        exact hca (by simp [List.isPrefixOf])
      rw [if_neg (by simpa using hca)] at hp
      cases hsr : splitOnList [c] rest with
      | nil => exact absurd hsr (splitOnList_ne_nil [c] rest)
      | cons q qs =>
        rw [hsr] at hp
        rcases List.mem_cons.mp hp with rfl | hp'
        · intro hmem
          rcases List.mem_cons.mp hmem with rfl | hmem'
          · exact hne rfl
          · exact ih q (hsr ▸ List.mem_cons_self q qs) hmem'
        · exact ih p (hsr ▸ List.mem_cons_of_mem q hp')

/-- Every piece produced by the splitter's regex split on a single-character
separator is free of that character past its first position. -/
theorem splitTextWithRegex_single_drop (c : Char) (text : List Char) :
    ∀ s ∈ splitTextWithRegex [c] text, c ∉ s.drop 1 := by
  intro s hs
  rw [splitTextWithRegex] at hs
  rw [if_neg (by simp)] at hs
  cases hso : splitOnList [c] text with
  | nil => exact absurd hso (splitOnList_ne_nil [c] text)
  | cons p ps =>
    rw [hso] at hs
    have hmem := List.mem_of_mem_filter hs
    rcases List.mem_cons.mp hmem with rfl | hmem'
    · have := splitOnList_single_not_mem c text s (hso ▸ List.mem_cons_self s ps)
      intro hc
      exact this (List.drop_subset 1 s hc)
    · obtain ⟨q, hq, rfl⟩ := List.mem_map.mp hmem'
      have : c ∉ q := splitOnList_single_not_mem c text q (hso ▸ List.mem_cons_of_mem p hq)
      simpa using this

/-- `sumLen` is additive on cons. -/
theorem sumLen_cons (p : List Char) (l : List (List Char)) :
    sumLen (p :: l) = (p.length : Int) + sumLen l := by
  simp [sumLen]

/-- `sumLen` of a window extended on the right. -/
theorem sumLen_append_single (l : List (List Char)) (p : List Char) :
    sumLen (l ++ [p]) = sumLen l + (p.length : Int) := by
  simp [sumLen]

/-- `sumLen` is non-negative. -/
theorem sumLen_nonneg (l : List (List Char)) : 0 ≤ sumLen l := by
  unfold sumLen
  exact Int.natCast_nonneg _

/-- Joining with the empty separator concatenates, so the length is the sum
of the pieces' lengths. -/
theorem sepJoin_nil_length (l : List (List Char)) :
    ((sepJoin [] l).length : Int) = sumLen l := by
  induction l with
  | nil => simp [sepJoin, sumLen]
  | cons p rest ih =>
    cases rest with
    | nil => simp [sepJoin, sumLen]
    | cons q qs =>
      have hstep : sepJoin [] (p :: q :: qs) = p ++ [] ++ sepJoin [] (q :: qs) := rfl
      rw [hstep, sumLen_cons]
      simp only [List.append_nil, List.length_append]
      push_cast
      rw [ih]

/-- Stripping whitespace never lengthens a string. -/
theorem pyStripList_length_le (l : List Char) :
    (pyStripList l).length ≤ l.length := by
  unfold pyStripList
  calc ((l.dropWhile Char.isWhitespace).reverse.dropWhile Char.isWhitespace).reverse.length
      = ((l.dropWhile Char.isWhitespace).reverse.dropWhile Char.isWhitespace).length := by
        rw [List.length_reverse]
    _ ≤ (l.dropWhile Char.isWhitespace).reverse.length :=
        (List.dropWhile_suffix _).sublist.length_le
    _ = (l.dropWhile Char.isWhitespace).length := by rw [List.length_reverse]
    _ ≤ l.length := (List.dropWhile_suffix _).sublist.length_le

/-- A document emitted by `joinDocs` with the empty separator is no longer
than the window total. -/
theorem joinDocs_nil_mem_length (cur : List (List Char)) (d : List Char)
    (hd : d ∈ (joinDocs ([] : List Char) cur).toList) :
    (d.length : Int) ≤ sumLen cur := by
  rw [joinDocs] at hd
  split at hd
  · simp at hd
  · simp only [Option.toList_some, List.mem_singleton] at hd
    subst hd
    calc ((pyStripList (sepJoin [] cur)).length : Int)
        ≤ ((sepJoin [] cur).length : Int) := by
          exact_mod_cast pyStripList_length_le (sepJoin [] cur)
      _ = sumLen cur := sepJoin_nil_length cur

/-- The pop loop with empty separator keeps `total` equal to the window sum
and exits with the total within the overlap and (unless empty) with room for
the next piece. -/
theorem popLoop_spec (dlen : Int) (cur : List (List Char)) (total : Int)
    (ht : total = sumLen cur) :
    (popLoop 1000 200 0 dlen total cur).1 = sumLen (popLoop 1000 200 0 dlen total cur).2
    ∧ (popLoop 1000 200 0 dlen total cur).1 ≤ 200
    ∧ ((popLoop 1000 200 0 dlen total cur).1 + dlen ≤ 1000
        ∨ (popLoop 1000 200 0 dlen total cur).1 = 0) := by
  induction cur generalizing total with
  | nil =>
    subst ht
    simp [popLoop, sumLen]
  | cons c0 rest ih =>
    rw [popLoop]
    split
    · apply ih
      subst ht
      rw [sumLen_cons]
      split <;> ring
    · rename_i hcond
      have hnn : 0 ≤ total := ht ▸ sumLen_nonneg (c0 :: rest)
      refine ⟨ht, ?_, ?_⟩ <;> omega

/-- The merge loop with empty separator only emits documents of length at
most the chunk size, provided every input piece is strictly shorter than the
chunk size and the window total is within bounds. -/
theorem mergeGo_bound (splits : List (List Char)) :
    ∀ (cur : List (List Char)) (total : Int),
    (∀ s ∈ splits, (s.length : Int) < 1000) →
    total = sumLen cur → total ≤ 1000 →
    ∀ d ∈ mergeGo 1000 200 [] splits cur total, d.length ≤ 1000 := by
  induction splits with
  | nil =>
    intro cur total _ ht hb d hd
    rw [mergeGo] at hd
    have h1 := joinDocs_nil_mem_length cur d hd
    have h2 : (d.length : Int) ≤ 1000 := le_trans h1 (ht ▸ hb)
    exact_mod_cast h2
  | cons d0 rest ih =>
    intro cur total hs ht hb d hd
    have hd0 : (d0.length : Int) < 1000 := hs d0 (List.mem_cons_self d0 rest)
    have hsr : ∀ s ∈ rest, (s.length : Int) < 1000 :=
      fun s h => hs s (List.mem_cons_of_mem d0 h)
    rw [mergeGo] at hd
    simp only [List.length_nil, Nat.cast_zero, ite_self, add_zero] at hd
    by_cases hc : total + (d0.length : Int) > 1000
    · rw [if_pos hc] at hd
      by_cases hce : cur.isEmpty
      · rw [if_pos hce] at hd
        have hcur : cur = [] := List.isEmpty_iff.mp hce
        subst hcur
        have ht0 : total = 0 := by simpa [sumLen] using ht
        simp only [List.nil_append] at hd
        refine ih [d0] (total + (d0.length : Int)) hsr ?_ (by omega) d hd
        rw [ht0, sumLen_cons]
        simp [sumLen]
      · rw [if_neg hce] at hd
        simp only [List.mem_append] at hd
        rcases hd with hd | hd
        · have h1 := joinDocs_nil_mem_length cur d hd
          have h2 : (d.length : Int) ≤ 1000 := le_trans h1 (ht ▸ hb)
          exact_mod_cast h2
        · obtain ⟨hp1, hp2, hp3⟩ := popLoop_spec (d0.length : Int) cur total ht
          refine ih _ _ hsr ?_ ?_ d hd
          · rw [sumLen_append_single, hp1]
          · omega
    · rw [if_neg hc] at hd
      simp only [List.nil_append] at hd
      refine ih _ _ hsr ?_ (by omega) d hd
      rw [sumLen_append_single, ht]

/-- `mergeSplits` with empty separator respects the chunk size when every
input piece is strictly shorter than it. -/
theorem mergeSplits_bound (splits : List (List Char))
    (hs : ∀ s ∈ splits, (s.length : Int) < 1000) :
    ∀ d ∈ mergeSplits 1000 200 [] splits, d.length ≤ 1000 := by
  intro d hd
  exact mergeGo_bound splits [] 0 hs (by simp [sumLen]) (by norm_num) d hd

/-- The split-processing loop only emits chunks that are within the chunk
size or (on the leaf level) pieces handed to it; recursively produced chunks
keep whatever bound the recursion guarantees. -/
theorem processSplits_bound (leaf : Bool) (recurse : List Char → List (List Char))
    (splits : List (List Char)) :
    ∀ (good : List (List Char)),
    (∀ g ∈ good, (g.length : Int) < 1000) →
    (leaf = true → ∀ s ∈ splits, ' ' ∉ s.drop 1) →
    (leaf = false → ∀ s ∈ splits, ∀ c ∈ recurse s,
      c.length ≤ 1000 ∨ ' ' ∉ c.drop 1) →
    ∀ c ∈ processSplits 1000 200 leaf recurse splits good,
      c.length ≤ 1000 ∨ ' ' ∉ c.drop 1 := by
  induction splits with
  | nil =>
    intro good hg _ _ c hc
    rw [processSplits] at hc
    split at hc
    · simp at hc
    · exact Or.inl (mergeSplits_bound good hg c hc)
  | cons s rest ih =>
    intro good hg hleaf hrec c hc
    have hleaf' : leaf = true → ∀ t ∈ rest, ' ' ∉ t.drop 1 :=
      fun h t ht => hleaf h t (List.mem_cons_of_mem s ht)
    have hrec' : leaf = false → ∀ t ∈ rest, ∀ c ∈ recurse t,
        c.length ≤ 1000 ∨ ' ' ∉ c.drop 1 :=
      fun h t ht => hrec h t (List.mem_cons_of_mem s ht)
    rw [processSplits] at hc
    split at hc
    · rename_i hlen
      refine ih (good ++ [s]) ?_ hleaf' hrec' c hc
      intro g hgm
      rcases List.mem_append.mp hgm with hgm | hgm
      · exact hg g hgm
      · rw [List.mem_singleton] at hgm
        subst hgm
        exact hlen
    · simp only [List.mem_append] at hc
      rcases hc with (hc | hc) | hc
      · split at hc
        · simp at hc
        · exact Or.inl (mergeSplits_bound good hg c hc)
      · cases hl : leaf with
        | true =>
          rw [hl, if_pos rfl] at hc
          rw [List.mem_singleton] at hc
          subst hc
          exact Or.inr (hleaf hl c (List.mem_cons_self c rest))
        | false =>
          rw [hl] at hc
          simp only [Bool.false_eq_true, if_false] at hc
          exact hrec hl s (List.mem_cons_self s rest) c hc
      · exact ih [] (by simp) hleaf' hrec' c hc

/-- Chunk bound at the last separator level `[" "]`: every chunk is within
the chunk size or contains no space past its first character. -/
theorem splitTextR_bound_S (text : List Char) :
    ∀ c ∈ splitTextR 1000 200 [[' ']] text,
      c.length ≤ 1000 ∨ ' ' ∉ c.drop 1 := by
  intro c hc
  rw [splitTextR] at hc
  have hcs : chooseSep [[' ']] text = ([' '], []) := by simp [chooseSep]
  rw [hcs] at hc
  dsimp only [List.isEmpty_nil] at hc
  refine processSplits_bound true _ _ [] (by simp) ?_ ?_ c hc
  · intro _ s hs
    exact splitTextWithRegex_single_drop ' ' text s hs
  · intro h
    exact absurd h (by simp)

/-- Chunk bound at the separator level `[". ", " "]`. -/
theorem splitTextR_bound_DS (text : List Char) :
    ∀ c ∈ splitTextR 1000 200 [['.', ' '], [' ']] text,
      c.length ≤ 1000 ∨ ' ' ∉ c.drop 1 := by
  intro c hc
  rw [splitTextR] at hc
  cases hds : containsSub ['.', ' '] text with
  | true =>
    have hcs : chooseSep [['.', ' '], [' ']] text = (['.', ' '], [[' ']]) := by
      simp [chooseSep, hds]
    rw [hcs] at hc
    dsimp only [List.isEmpty_cons] at hc
    refine processSplits_bound false _ _ [] (by simp) ?_ ?_ c hc
    · intro h
      exact absurd h (by simp)
    · intro _ s _ c' hc'
      exact splitTextR_bound_S s c' hc'
  | false =>
    have hcs : chooseSep [['.', ' '], [' ']] text = ([' '], []) := by
      simp [chooseSep, hds]
    rw [hcs] at hc
    dsimp only [List.isEmpty_nil] at hc
    refine processSplits_bound true _ _ [] (by simp) ?_ ?_ c hc
    · intro _ s hs
      exact splitTextWithRegex_single_drop ' ' text s hs
    · intro h
      exact absurd h (by simp)

/-- Chunk bound at the separator level `["\n", ". ", " "]`. -/
theorem splitTextR_bound_NDS (text : List Char) :
    ∀ c ∈ splitTextR 1000 200 [['\n'], ['.', ' '], [' ']] text,
      c.length ≤ 1000 ∨ ' ' ∉ c.drop 1 := by
  intro c hc
  rw [splitTextR] at hc
  cases hn : containsSub ['\n'] text with
  | true =>
    have hcs : chooseSep [['\n'], ['.', ' '], [' ']] text
        = (['\n'], [['.', ' '], [' ']]) := by
      simp [chooseSep, hn]
    rw [hcs] at hc
    dsimp only [List.isEmpty_cons] at hc
    refine processSplits_bound false _ _ [] (by simp) ?_ ?_ c hc
    · intro h
      exact absurd h (by simp)
    · intro _ s _ c' hc'
      exact splitTextR_bound_DS s c' hc'
  | false =>
    cases hds : containsSub ['.', ' '] text with
    | true =>
      have hcs : chooseSep [['\n'], ['.', ' '], [' ']] text
          = (['.', ' '], [[' ']]) := by
        simp [chooseSep, hn, hds]
      rw [hcs] at hc
      dsimp only [List.isEmpty_cons] at hc
      refine processSplits_bound false _ _ [] (by simp) ?_ ?_ c hc
      · intro h
        exact absurd h (by simp)
      · intro _ s _ c' hc'
        exact splitTextR_bound_S s c' hc'
    | false =>
      have hcs : chooseSep [['\n'], ['.', ' '], [' ']] text = ([' '], []) := by
        simp [chooseSep, hn, hds]
      rw [hcs] at hc
      dsimp only [List.isEmpty_nil] at hc
      refine processSplits_bound true _ _ [] (by simp) ?_ ?_ c hc
      · intro _ s hs
        exact splitTextWithRegex_single_drop ' ' text s hs
      · intro h
        exact absurd h (by simp)

/-- Chunk bound for the full configured separator list: every chunk of
`split_text` is within the chunk size or is an unsplittable piece (no space
past its first character). -/
theorem split_text_bound (text : List Char) :
    ∀ c ∈ split_text text, c.length ≤ 1000 ∨ ' ' ∉ c.drop 1 := by
  intro c hc
  rw [split_text, rcts_separators] at hc
  rw [splitTextR] at hc
  cases hnn : containsSub ['\n', '\n'] text with
  | true =>
    have hcs : chooseSep [['\n', '\n'], ['\n'], ['.', ' '], [' ']] text
        = (['\n', '\n'], [['\n'], ['.', ' '], [' ']]) := by
      simp [chooseSep, hnn]
    rw [hcs] at hc
    dsimp only [List.isEmpty_cons] at hc
    refine processSplits_bound false _ _ [] (by simp) ?_ ?_ c hc
    · intro h
      exact absurd h (by simp)
    · intro _ s _ c' hc'
      exact splitTextR_bound_NDS s c' hc'
  | false =>
    cases hn : containsSub ['\n'] text with
    | true =>
      have hcs : chooseSep [['\n', '\n'], ['\n'], ['.', ' '], [' ']] text
          = (['\n'], [['.', ' '], [' ']]) := by
        simp [chooseSep, hnn, hn]
      rw [hcs] at hc
      dsimp only [List.isEmpty_cons] at hc
      refine processSplits_bound false _ _ [] (by simp) ?_ ?_ c hc
      · intro h
        exact absurd h (by simp)
      · intro _ s _ c' hc'
        exact splitTextR_bound_DS s c' hc'
    | false =>
      cases hds : containsSub ['.', ' '] text with
      | true =>
        have hcs : chooseSep [['\n', '\n'], ['\n'], ['.', ' '], [' ']] text
            = (['.', ' '], [[' ']]) := by
          simp [chooseSep, hnn, hn, hds]
        rw [hcs] at hc
        dsimp only [List.isEmpty_cons] at hc
        refine processSplits_bound false _ _ [] (by simp) ?_ ?_ c hc
        · intro h
          exact absurd h (by simp)
        · intro _ s _ c' hc'
          exact splitTextR_bound_S s c' hc'
      | false =>
        have hcs : chooseSep [['\n', '\n'], ['\n'], ['.', ' '], [' ']] text
            = ([' '], []) := by
          simp [chooseSep, hnn, hn, hds]
        rw [hcs] at hc
        dsimp only [List.isEmpty_nil] at hc
        refine processSplits_bound true _ _ [] (by simp) ?_ ?_ c hc
        · intro _ s hs
          exact splitTextWithRegex_single_drop ' ' text s hs
        · intro h
          exact absurd h (by simp)

/-- On a text of at least chunk size containing none of the configured
separators, the splitter emits the whole text as one chunk. -/
theorem split_text_no_sep_big (text : List Char)
    (h : ∀ s ∈ rcts_separators, containsSub s text = false)
    (hlen : 1000 ≤ text.length) : split_text text = [text] := by
  have hnn := h ['\n', '\n'] (by simp [rcts_separators])
  have hn := h ['\n'] (by simp [rcts_separators])
  have hds := h ['.', ' '] (by simp [rcts_separators])
  have hsp := h [' '] (by simp [rcts_separators])
  rw [split_text, rcts_separators, splitTextR]
  have hcs : chooseSep [['\n', '\n'], ['\n'], ['.', ' '], [' ']] text = ([' '], []) := by
    simp [chooseSep, hnn, hn, hds]
  rw [hcs]
  dsimp only [List.isEmpty_nil]
  have hne : text.isEmpty = false := by
    cases text with
    | nil => simp at hlen
    | cons a t => rfl
  have hsw : splitTextWithRegex [' '] text = [text] := by
    rw [splitTextWithRegex, if_neg (by simp), splitOnList_no_occ [' '] text hsp]
    simp [hne]
  rw [hsw, processSplits]
  rw [if_neg (by omega)]
  rw [processSplits]
  simp only [List.isEmpty_nil, if_true, if_false, List.nil_append, List.append_nil]

/-- A replicated character contains no pattern starting with a different
character. -/
theorem containsSub_replicate_head_ne (d : Char) (ss : List Char) (c : Char) (n : Nat)
    (h : d ≠ c) : containsSub (d :: ss) (List.replicate n c) = false := by
  induction n with
  | zero => rfl
  | succ n ih =>
    rw [List.replicate_succ, containsSub]
    have hpre : (d :: ss).isPrefixOf (c :: List.replicate n c) = false := by
      simp [List.isPrefixOf, h]
    rw [hpre, ih, Bool.or_self]

/-- The 1001-character single-word document passes through the chunker
unchanged: one chunk of 1001 characters. -/
theorem chunk_documents_bigDoc : chunk_documents [bigDoc] = [bigDoc] := by
  have h1 : split_text (List.replicate 1001 'a') = [List.replicate 1001 'a'] := by
    apply split_text_no_sep_big
    · intro s hs
      simp only [rcts_separators, List.mem_cons, List.not_mem_nil, or_false] at hs
      rcases hs with rfl | rfl | rfl | rfl
      · exact containsSub_replicate_head_ne _ _ _ _ (by decide)
      · exact containsSub_replicate_head_ne _ _ _ _ (by decide)
      · exact containsSub_replicate_head_ne _ _ _ _ (by decide)
      · exact containsSub_replicate_head_ne _ _ _ _ (by decide)
    · rw [List.length_replicate]
      norm_num
  rw [chunk_documents, if_neg (by simp), rcts_split_documents]
  simp only [List.map_cons, List.map_nil]
  have hdata : bigDoc.page_content.data = List.replicate 1001 'a' := rfl
  rw [hdata, h1]
  simp only [List.map_cons, List.map_nil, List.flatten]
  rfl

/-- C3 counterexample: the claim that every chunk has page content of at most
1000 characters fails on a document whose content is a single 1001-character
word: the splitter emits it whole, as one chunk of length 1001. -/
theorem chunk_exceeds_chunk_size_counterexample :
    (chunk_documents [bigDoc]).map (fun c => c.page_content.data.length) = [1001]
    ∧ 1000 < 1001 := by
  rw [chunk_documents_bigDoc]
  refine ⟨?_, by norm_num⟩
  have hlen : bigDoc.page_content.data.length = 1001 := by
    have hdata : bigDoc.page_content.data = List.replicate 1001 'a' := rfl
    rw [hdata, List.length_replicate]
  have hlen' : bigDoc.page_content.length = 1001 := hlen
  simp [hlen, hlen']

/-- C3 (amended): every chunk produced by `chunk_documents` (and
`chunk_documents_api`) has page content of length at most 1000 characters,
except chunks the splitter cannot divide further — those containing no
occurrence of the space separator past their first character — which are
emitted at full length. -/
theorem chunk_size_bound_except_unsplittable (docs : List Document) (c : Document)
    (h : c ∈ chunk_documents docs ∨ c ∈ chunk_documents_api docs) :
    c.page_content.data.length ≤ 1000 ∨ ' ' ∉ c.page_content.data.drop 1 := by
  have hmem : c ∈ chunk_documents docs := by
    rcases h with h | h
    · exact h
    · exact h
  rw [chunk_documents] at hmem
  split at hmem
  · simp at hmem
  · rw [rcts_split_documents, List.mem_flatten] at hmem
    obtain ⟨l, hl, hcl⟩ := hmem
    rw [List.mem_map] at hl
    obtain ⟨d, _, rfl⟩ := hl
    rw [List.mem_map] at hcl
    obtain ⟨chunkData, hchunk, rfl⟩ := hcl
    exact split_text_bound d.page_content.data chunkData hchunk

/-- Witness for C3 (amended) at the 1001-character single-word document. -/
theorem chunk_size_bound_except_unsplittable_witness :
    bigDoc.page_content.data.length ≤ 1000 ∨ ' ' ∉ bigDoc.page_content.data.drop 1 :=
  chunk_size_bound_except_unsplittable [bigDoc] bigDoc
    (Or.inl (by rw [chunk_documents_bigDoc]; exact List.mem_singleton_self bigDoc))

end PolicyReader
